import Mathlib

/-!
Verification of the training script `src/EX2/main.py`.

The script drives one training loop (`train_model`, lines 32-103): for each
epoch it runs a train phase over all training batches, steps the learning-rate
scheduler, runs a validation phase over all validation batches, tracks the
best validation accuracy, snapshots the best weights, and writes checkpoint
files.  The numeric library (forward pass, gradients, SGD, PRNGs) is external;
it is embedded here as abstract function parameters, while every piece of
control flow, accumulation arithmetic and checkpoint logic present in the
script itself is translated directly.

Accuracies, losses and learning rates are modelled as exact rationals; the
script computes them in floating point, but every claim under study concerns
the value-level logic, not rounding.
-/

namespace EX2

/-! ## Checkpoint model of the epoch loop (main.py lines 32-103)

The per-epoch inputs that come from the numeric library are abstracted:
`tw e` is the model's weight state after epoch `e`'s train phase (the result
of the SGD updates, which the library performs), and `acc e` is epoch `e`'s
validation accuracy `epoch_acc`.  Everything else — `best_acc`,
`best_model_wts`, the `save_dir` variable, the checkpoint writes, and the
crash that occurs when `save_dir` is read before assignment — is the
script's own logic, translated line by line. -/

/-- The loop-local state of `train_model`.  `save_dir` is `none` while the
Python local variable is still unbound (it is only assigned inside the
best-save branch, line 88); reading it unbound raises `UnboundLocalError`,
recorded here as `crashed = true`.  `bestWrites` records, in order, the
accuracy attached to each write of `best_model.pth` (line 90); `epochFiles`
records the `N` of each `model_epoch_N.pth` written (line 94). -/
structure RunState (W : Type) where
  best_acc : ℚ
  best_wts : W
  save_dir : Option String
  bestWrites : List ℚ
  epochFiles : List ℕ
  crashed : Bool
deriving DecidableEq

/-- Lines 34-35: `best_model_wts = copy.deepcopy(model.state_dict())`,
`best_acc = 0.0`; `save_dir` unbound, no files written yet. -/
def initState {W : Type} (w0 : W) : RunState W :=
  { best_acc := 0, best_wts := w0, save_dir := none,
    bestWrites := [], epochFiles := [], crashed := false }

/-- End of epoch `e`'s train phase, lines 92-94: every 2 epochs
(`(epoch + 1) % 2 == 0`) save `model_epoch_{epoch+1}.pth` into `save_dir`.
If the local `save_dir` has never been assigned (line 88 not yet reached),
Python raises `UnboundLocalError` and the whole run aborts. -/
def trainPhase {W : Type} (e : ℕ) (s : RunState W) : RunState W :=
  if (e + 1) % 2 = 0 then
    match s.save_dir with
    | none => { s with crashed := true }
    | some _ => { s with epochFiles := s.epochFiles ++ [e + 1] }
  else s

/-- End of epoch `e`'s validation phase, lines 85-90: if
`epoch_acc > best_acc`, update `best_acc`, deep-copy the weights, assign
`save_dir = 'work_dir'` and overwrite `best_model.pth`. -/
def valPhase {W : Type} (w : W) (a : ℚ) (s : RunState W) : RunState W :=
  if s.best_acc < a then
    { s with best_acc := a, best_wts := w, save_dir := some "work_dir",
             bestWrites := s.bestWrites ++ [a] }
  else s

/-- One iteration of `for epoch in range(num_epochs)` (lines 40-96): the
train phase (whose weight updates yield `tw e`) with its periodic save,
then the validation phase with its best-save.  A crashed run performs no
further work. -/
def epochStep {W : Type} (tw : ℕ → W) (acc : ℕ → ℚ) (s : RunState W) (e : ℕ) :
    RunState W :=
  if s.crashed then s
  else
    let s1 := trainPhase e s
    if s1.crashed then s1 else valPhase (tw e) (acc e) s1

/-- The state after the first `n` epochs of the loop. -/
def loop {W : Type} (w0 : W) (tw : ℕ → W) (acc : ℕ → ℚ) (n : ℕ) : RunState W :=
  (List.range n).foldl (epochStep tw acc) (initState w0)

/-- `train_model` (lines 32-103): run all epochs, then
`model.load_state_dict(best_model_wts); return model` (lines 102-103).
The second component is the returned model's weights — `none` when the run
aborted with `UnboundLocalError` and nothing is returned. -/
def train_model {W : Type} (w0 : W) (tw : ℕ → W) (acc : ℕ → ℚ) (E : ℕ) :
    RunState W × Option W :=
  let s := loop w0 tw acc E
  (s, if s.crashed then none else some s.best_wts)

/-! ### Specification-side descriptions of the loop state

Closed-form descriptions of each `RunState` field for a run that does not
crash, used to characterise `loop` by induction. -/

/-- Running maximum of `0.0` and the validation accuracies of epochs `< n`:
the value of `best_acc` entering epoch `n`. -/
def bestAccSpec (acc : ℕ → ℚ) : ℕ → ℚ
  | 0 => 0
  | n + 1 => max (bestAccSpec acc n) (acc n)

/-- Accuracies attached to the successive `best_model.pth` writes during
epochs `< n`. -/
def bestWritesSpec (acc : ℕ → ℚ) : ℕ → List ℚ
  | 0 => []
  | n + 1 =>
      bestWritesSpec acc n ++ if bestAccSpec acc n < acc n then [acc n] else []

/-- The best-weights snapshot entering epoch `n`. -/
def bestWtsSpec {W : Type} (w0 : W) (tw : ℕ → W) (acc : ℕ → ℚ) : ℕ → W
  | 0 => w0
  | n + 1 => if bestAccSpec acc n < acc n then tw n else bestWtsSpec w0 tw acc n

/-- The `N` of each `model_epoch_N.pth` written during epochs `< n` (in a
run that does not crash). -/
def epochFilesSpec : ℕ → List ℕ
  | 0 => []
  | n + 1 => epochFilesSpec n ++ if (n + 1) % 2 = 0 then [n + 1] else []

/-! ## Event-trace model of the phase order (main.py lines 40-96)

Within one epoch the script iterates `for phase in ['train', 'val']`; inside
the train iteration it processes every training batch (lines 58-74), then
calls `scheduler.step()` (lines 76-77); inside the val iteration it processes
every validation batch.  `runTrace nT nV E` is the sequence of these events
for a run of `E` epochs whose train loader yields `nT` batches and whose
validation loader yields `nV` batches per epoch. -/

/-- An observable event of the training loop: processing training batch `i`
of epoch `e`, the `scheduler.step()` call of epoch `e`, or processing
validation batch `j` of epoch `e`. -/
inductive Ev where
  | trainBatch : ℕ → ℕ → Ev
  | schedStep : ℕ → Ev
  | valBatch : ℕ → ℕ → Ev
deriving DecidableEq

/-- Number of events of one epoch. -/
def epochLen (nT nV : ℕ) : ℕ := nT + 1 + nV

/-- The events of epoch `e` in source order: all training batches, then the
`scheduler.step()` call (line 77, still inside the train iteration of the
phase loop), then all validation batches. -/
def epochEvents (nT nV e : ℕ) : List Ev :=
  (List.range nT).map (Ev.trainBatch e) ++ [Ev.schedStep e]
    ++ (List.range nV).map (Ev.valBatch e)

/-- The event trace of a full run: epoch 0's events, then epoch 1's, ... -/
def runTrace (nT nV : ℕ) : ℕ → List Ev
  | 0 => []
  | e + 1 => runTrace nT nV e ++ epochEvents nT nV e

/-- The per-epoch event order asserted by the specification (§4.5): all
training batches, then all validation batches, then the scheduler advance.
This definition follows the spec's words, to be compared with `epochEvents`,
which follows the source. -/
def epochEventsClaimed (nT nV e : ℕ) : List Ev :=
  (List.range nT).map (Ev.trainBatch e) ++ (List.range nV).map (Ev.valBatch e)
    ++ [Ev.schedStep e]

/-- Full-run trace in the order claimed by the specification. -/
def runTraceClaimed (nT nV : ℕ) : ℕ → List Ev
  | 0 => []
  | e + 1 => runTraceClaimed nT nV e ++ epochEventsClaimed nT nV e

/-- Test whether an event is a `scheduler.step()` call. -/
def isSchedStep : Ev → Bool
  | Ev.schedStep _ => true
  | _ => false

/-! ## Learning-rate scheduler (main.py lines 155-158 and 76-77)

`lr_scheduler.StepLR(optimizer, step_size=7, gamma=0.1)` over an optimizer
built with `lr=0.001`.  Each `scheduler.step()` increments the schedule's
epoch counter and multiplies the optimizer's learning rate by `gamma`
whenever the new counter value is a multiple of `step_size`. -/

/-- The scheduler's state: its configuration, its epoch counter
(`last_epoch`), and the learning rate currently stored in the optimizer's
parameter group. -/
structure SchedState where
  step_size : ℕ
  gamma : ℚ
  last_epoch : ℕ
  lr : ℚ
deriving DecidableEq

/-- One `scheduler.step()` call of `StepLR`: increment `last_epoch`, and
multiply the stored learning rate by `gamma` exactly when the incremented
counter is a (positive) multiple of `step_size`. -/
def schedStepLR (s : SchedState) : SchedState :=
  { s with last_epoch := s.last_epoch + 1,
           lr := if (s.last_epoch + 1) % s.step_size = 0 then s.lr * s.gamma
                 else s.lr }

/-- The scheduler as constructed in the script: `step_size=7`, `gamma=0.1`,
optimizer learning rate `0.001` (lines 155, 158). -/
def schedInit : SchedState :=
  { step_size := 7, gamma := 0.1, last_epoch := 0, lr := 0.001 }

/-- The optimizer's learning rate after `n` `scheduler.step()` calls, i.e.
the rate in effect during epoch `n`'s training phase (the scheduler is
stepped once at the end of each earlier epoch's train phase). -/
def lrAfter (n : ℕ) : ℚ := (schedStepLR^[n] schedInit).lr

/-! ## Batch processing and epoch metrics (main.py lines 48-82)

Per batch (lines 58-74): forward pass producing `outputs`, `preds` by
arg-max, `loss` from the criterion; in the train phase additionally
`loss.backward(); optimizer.step()` (the resulting weight update is the
abstract `optStep`); then `running_loss += loss.item() * inputs.size(0)` and
`running_corrects += torch.sum(preds == labels.data)`.  The library-supplied
pieces — the forward pass `forward`, the loss value `criterion`, the SGD
update `optStep` — are abstract parameters. -/

/-- The two phases of an epoch (`for phase in ['train', 'val']`). -/
inductive Phase where
  | train : Phase
  | val : Phase
deriving DecidableEq

/-- One batch yielded by a data loader: the input samples and their labels. -/
structure Batch (I : Type) where
  inputs : List I
  labels : List ℕ

/-- The state carried through one phase of one epoch: the model weights and
the running metric accumulators (lines 54-55). -/
structure PhaseState (W : Type) where
  weights : W
  running_loss : ℚ
  running_corrects : ℕ

/-- `torch.sum(preds == labels.data)`: how many predictions match labels. -/
def batchCorrects (preds labels : List ℕ) : ℕ :=
  (preds.zip labels).countP fun pl => pl.1 == pl.2

/-- Lines 58-74 for one batch: predictions and loss are computed from the
current weights; only in the train phase does `optimizer.step()` change the
weights; both accumulators are updated from the pre-step values. -/
def batchStep {W I : Type} (forward : W → I → ℕ) (criterion : W → Batch I → ℚ)
    (optStep : W → Batch I → W) (phase : Phase) (s : PhaseState W)
    (b : Batch I) : PhaseState W :=
  { weights :=
      match phase with
      | Phase.train => optStep s.weights b
      | Phase.val => s.weights,
    running_loss := s.running_loss + criterion s.weights b * b.inputs.length,
    running_corrects := s.running_corrects +
      batchCorrects (b.inputs.map (forward s.weights)) b.labels }

/-- One phase of one epoch: fold `batchStep` over the loader's batches
(`for inputs, labels in dataloaders[phase]`). -/
def phaseRun {W I : Type} (forward : W → I → ℕ) (criterion : W → Batch I → ℚ)
    (optStep : W → Batch I → W) (phase : Phase) (s : PhaseState W)
    (bs : List (Batch I)) : PhaseState W :=
  bs.foldl (batchStep forward criterion optStep phase) s

/-- Lines 79-80: `epoch_loss = running_loss / dataset_sizes[phase]` and
`epoch_acc = running_corrects.double() / dataset_sizes[phase]`, as the pair
`(epoch_loss, epoch_acc)`. -/
def epochMetrics {W : Type} (s : PhaseState W) (size : ℕ) : ℚ × ℚ :=
  (s.running_loss / size, (s.running_corrects : ℚ) / size)

/-! ## Dataset split (main.py lines 128-131) and worker seeding (lines 27-28) -/

/-- Line 128: `train_size = int(0.8 * len(full_dataset))`; `int` truncation
of a non-negative value is the floor. -/
def train_size (N : ℕ) : ℕ := ⌊(0.8 : ℚ) * (N : ℚ)⌋₊

/-- Line 129: `val_size = len(full_dataset) - train_size`. -/
def val_size (N : ℕ) : ℕ := N - train_size N

/-- Line 131, `torch.utils.data.random_split(full_dataset, [l1, l2])`: the
library draws a random permutation `perm` of all sample indices and assigns
the first `l1` of them to the first subset, the rest to the second. -/
def random_split (perm : List ℕ) (l1 : ℕ) : List ℕ × List ℕ :=
  (perm.take l1, perm.drop l1)

/-- Lines 27-28, `worker_init_fn`: data-loading worker `worker_id` seeds its
NumPy RNG with `42 + worker_id`. -/
def worker_init_fn (worker_id : ℕ) : ℕ := 42 + worker_id

/-- The train/validation index split produced by a run.  `torchPerm seed N`
models `torch.randperm(N)` as drawn under `set_seed(seed)`: the library PRNG
is deterministic, i.e. a function of its seed and the draw size. -/
def splitOfSeed (torchPerm : ℕ → ℕ → List ℕ) (seed N : ℕ) : List ℕ × List ℕ :=
  random_split (torchPerm seed N) (train_size N)

/-- The augmentation randomness consumed by one data-loading worker.
`npStream s` models the NumPy random stream under seed `s` (deterministic in
the seed); worker `wid` uses the stream seeded by `worker_init_fn wid`. -/
def workerAugStream (npStream : ℕ → List ℚ) (wid : ℕ) : List ℚ :=
  npStream (worker_init_fn wid)

/-! ## Concrete run inputs used by witnesses and counterexamples -/

/-- Validation accuracies 1, 2, 0, 0, ... : epoch 0 improves, epoch 1
improves again, later epochs do not. -/
def accW : ℕ → ℚ
  | 0 => 1
  | 1 => 2
  | _ => 0

/-- A run in which every epoch's validation accuracy is 1. -/
def accP : ℕ → ℚ := fun _ => 1

/-- A run in which every epoch's validation accuracy is 0 (no epoch ever
strictly improves on the initial `best_acc = 0.0`). -/
def accZ : ℕ → ℚ := fun _ => 0

/-- Concrete per-epoch trained weights, distinguishable from each other and
from the initial weights `0`. -/
def twW : ℕ → ℕ := fun e => e + 10

/-- Concrete trained weights, all equal to 1 (distinct from the initial 0). -/
def twC : ℕ → ℕ := fun _ => 1

/-- A concrete permutation of the 10 sample indices, standing for one
possible draw of `torch.randperm(10)`. -/
def permW : List ℕ := [9, 0, 8, 1, 7, 2, 6, 3, 5, 4]

/-- One concrete two-sample batch. -/
def bsW : List (Batch ℕ) := [{ inputs := [5, 6], labels := [1, 0] }]

/-! ## Lemmas about the checkpoint loop -/

lemma loop_zero {W : Type} (w0 : W) (tw : ℕ → W) (acc : ℕ → ℚ) :
    loop w0 tw acc 0 = initState w0 := rfl

lemma loop_succ {W : Type} (w0 : W) (tw : ℕ → W) (acc : ℕ → ℚ) (n : ℕ) :
    loop w0 tw acc (n + 1) = epochStep tw acc (loop w0 tw acc n) n := by
  unfold loop
  rw [List.range_succ, List.foldl_append, List.foldl_cons, List.foldl_nil]

lemma epochStep_of_crashed {W : Type} (tw : ℕ → W) (acc : ℕ → ℚ)
    (s : RunState W) (e : ℕ) (h : s.crashed = true) :
    epochStep tw acc s e = s := by
  simp [epochStep, h]

lemma valPhase_crashed {W : Type} (w : W) (a : ℚ) (s : RunState W) :
    (valPhase w a s).crashed = s.crashed := by
  unfold valPhase
  split <;> rfl

/-- Action of one epoch on a non-crashed state whose `save_dir` has already
been assigned. -/
lemma epochStep_some {W : Type} (tw : ℕ → W) (acc : ℕ → ℚ) (e : ℕ)
    (b : ℚ) (w : W) (bw : List ℚ) (ef : List ℕ) :
    epochStep tw acc
      { best_acc := b, best_wts := w, save_dir := some "work_dir",
        bestWrites := bw, epochFiles := ef, crashed := false } e =
      { best_acc := max b (acc e),
        best_wts := if b < acc e then tw e else w,
        save_dir := some "work_dir",
        bestWrites := bw ++ if b < acc e then [acc e] else [],
        epochFiles := ef ++ if (e + 1) % 2 = 0 then [e + 1] else [],
        crashed := false } := by
  simp only [epochStep, trainPhase, valPhase]
  rcases Nat.eq_zero_or_pos ((e + 1) % 2) with h2 | h2
  · simp only [h2, if_pos rfl]
    rcases lt_or_le b (acc e) with hb | hb
    · simp [hb, max_eq_right hb.le]
    · simp [not_lt.2 hb, max_eq_left hb]
  · have h2' : ¬ (e + 1) % 2 = 0 := by omega
    simp only [if_neg h2']
    rcases lt_or_le b (acc e) with hb | hb
    · simp [hb, max_eq_right hb.le]
    · simp [not_lt.2 hb, max_eq_left hb]

/-- In a run whose first validation accuracy is positive, `save_dir` is
assigned during epoch 0 and the loop never crashes; every field of the loop
state is then given by its specification function. -/
lemma loop_char {W : Type} (w0 : W) (tw : ℕ → W) (acc : ℕ → ℚ)
    (h0 : 0 < acc 0) (n : ℕ) :
    loop w0 tw acc n =
      { best_acc := bestAccSpec acc n, best_wts := bestWtsSpec w0 tw acc n,
        save_dir := if n = 0 then none else some "work_dir",
        bestWrites := bestWritesSpec acc n, epochFiles := epochFilesSpec n,
        crashed := false } := by
  induction n with
  | zero => rfl
  | succ n ih =>
    rw [loop_succ, ih]
    cases n with
    | zero =>
      simp only [epochStep, trainPhase, valPhase, bestAccSpec, bestWritesSpec,
        bestWtsSpec, epochFilesSpec]
      norm_num [h0, max_eq_right h0.le]
    | succ m =>
      rw [if_neg (Nat.succ_ne_zero m), epochStep_some]
      simp only [bestAccSpec, bestWritesSpec, bestWtsSpec, epochFilesSpec]
      simp

/-- If epoch 0 shows no improvement, the first epoch assigns nothing and the
loop state after one epoch is still the initial state. -/
lemma loop_one_of_nonpos {W : Type} (w0 : W) (tw : ℕ → W) (acc : ℕ → ℚ)
    (h0 : acc 0 ≤ 0) : loop w0 tw acc 1 = initState w0 := by
  rw [loop_succ, loop_zero]
  simp [epochStep, trainPhase, valPhase, initState, not_lt.2 h0]

/-- If epoch 0 shows no improvement, the periodic save of epoch 1 reads the
unbound `save_dir` and the run aborts; from then on the state is the initial
state marked crashed. -/
lemma loop_crash_of_nonpos {W : Type} (w0 : W) (tw : ℕ → W) (acc : ℕ → ℚ)
    (h0 : acc 0 ≤ 0) (n : ℕ) (hn : 2 ≤ n) :
    loop w0 tw acc n = { initState w0 with crashed := true } := by
  induction n, hn using Nat.le_induction with
  | base =>
    rw [loop_succ, loop_one_of_nonpos w0 tw acc h0]
    simp [epochStep, trainPhase, initState]
  | succ n hn ih =>
    rw [loop_succ, ih]
    exact epochStep_of_crashed _ _ _ _ rfl

/-- The run crashes exactly when there are at least two epochs and epoch 0's
validation accuracy is not positive. -/
lemma loop_crashed_iff {W : Type} (w0 : W) (tw : ℕ → W) (acc : ℕ → ℚ)
    (n : ℕ) : (loop w0 tw acc n).crashed ↔ 2 ≤ n ∧ acc 0 ≤ 0 := by
  constructor
  · intro h
    by_contra hcon
    rw [not_and_or, not_le, not_le] at hcon
    rcases hcon with hn | hacc
    · interval_cases n
      · simp [loop_zero, initState] at h
      · rcases lt_or_le 0 (acc 0) with h0 | h0
        · rw [loop_char w0 tw acc h0 1] at h
          simp at h
        · rw [loop_one_of_nonpos w0 tw acc h0] at h
          simp [initState] at h
    · rw [loop_char w0 tw acc hacc n] at h
      simp at h
  · rintro ⟨hn, h0⟩
    rw [loop_crash_of_nonpos w0 tw acc h0 n hn]

/-- `best_acc` entering epoch `n` is below `q` exactly when `q` is positive
and above every accuracy seen so far. -/
lemma bestAccSpec_lt_iff (acc : ℕ → ℚ) (n : ℕ) (q : ℚ) :
    bestAccSpec acc n < q ↔ 0 < q ∧ ∀ j, j < n → acc j < q := by
  induction n with
  | zero =>
    simp only [bestAccSpec]
    exact ⟨fun h => ⟨h, fun j hj => absurd hj (Nat.not_lt_zero j)⟩, fun h => h.1⟩
  | succ n ih =>
    rw [bestAccSpec, max_lt_iff, ih]
    constructor
    · rintro ⟨⟨hq, hj⟩, he⟩
      refine ⟨hq, fun j hjn => ?_⟩
      rcases Nat.lt_succ_iff_lt_or_eq.1 hjn with h | h
      · exact hj j h
      · exact h ▸ he
    · rintro ⟨hq, hj⟩
      exact ⟨⟨hq, fun j hjn => hj j (hjn.trans (Nat.lt_succ_self n))⟩,
        hj n (Nat.lt_succ_self n)⟩

/-- Every accuracy ever attached to a `best_model.pth` write is at most the
current best accuracy. -/
lemma mem_bestWritesSpec_le (acc : ℕ → ℚ) (n : ℕ) :
    ∀ x ∈ bestWritesSpec acc n, x ≤ bestAccSpec acc n := by
  induction n with
  | zero => simp [bestWritesSpec]
  | succ n ih =>
    intro x hx
    rw [bestWritesSpec, List.mem_append] at hx
    rw [bestAccSpec]
    rcases hx with hx | hx
    · exact (ih x hx).trans (le_max_left _ _)
    · by_cases hc : bestAccSpec acc n < acc n
      · rw [if_pos hc, List.mem_singleton] at hx
        exact hx ▸ le_max_right _ _
      · rw [if_neg hc] at hx
        exact absurd hx (List.not_mem_nil x)

/-- The accuracies of the successive `best_model.pth` writes are strictly
increasing. -/
lemma bestWritesSpec_sorted (acc : ℕ → ℚ) (n : ℕ) :
    (bestWritesSpec acc n).Sorted (· < ·) := by
  induction n with
  | zero => simp [bestWritesSpec]
  | succ n ih =>
    rw [bestWritesSpec]
    by_cases hc : bestAccSpec acc n < acc n
    · rw [if_pos hc]
      rw [List.Sorted, List.pairwise_append]
      refine ⟨ih, List.pairwise_singleton _ _, fun x hx y hy => ?_⟩
      rw [List.mem_singleton] at hy
      exact hy ▸ (mem_bestWritesSpec_le acc n x hx).trans_lt hc
    · rw [if_neg hc]
      simpa using ih

/-- The best-weights snapshot entering epoch `n` is either still the initial
weights (no epoch so far had positive accuracy) or the weights of the first
epoch attaining the maximum accuracy so far. -/
lemma bestWtsSpec_char {W : Type} (w0 : W) (tw : ℕ → W) (acc : ℕ → ℚ)
    (n : ℕ) :
    ((∀ j, j < n → acc j ≤ 0) ∧ bestWtsSpec w0 tw acc n = w0 ∧
        bestAccSpec acc n = 0) ∨
      (∃ m, m < n ∧ 0 < acc m ∧ bestWtsSpec w0 tw acc n = tw m ∧
        bestAccSpec acc n = acc m ∧ (∀ j, j < n → acc j ≤ acc m) ∧
        ∀ j, j < m → acc j < acc m) := by
  induction n with
  | zero =>
    left
    exact ⟨fun j hj => absurd hj (Nat.not_lt_zero j), rfl, rfl⟩
  | succ n ih =>
    rcases ih with ⟨hall, hw, hb⟩ | ⟨m, hm, hpos, hw, hb, hle, hlt⟩
    · by_cases hc : 0 < acc n
      · right
        refine ⟨n, Nat.lt_succ_self n, hc, ?_, ?_, ?_, ?_⟩
        · rw [bestWtsSpec, if_pos (by rw [hb]; exact hc)]
        · rw [bestAccSpec, hb, max_eq_right hc.le]
        · intro j hj
          rcases Nat.lt_succ_iff_lt_or_eq.1 hj with h | h
          · exact (hall j h).trans hc.le
          · exact h ▸ le_refl _
        · intro j hj
          exact (hall j hj).trans_lt hc
      · left
        push_neg at hc
        refine ⟨fun j hj => ?_, ?_, ?_⟩
        · rcases Nat.lt_succ_iff_lt_or_eq.1 hj with h | h
          · exact hall j h
          · exact h ▸ hc
        · rw [bestWtsSpec, if_neg (by rw [hb]; exact not_lt.2 hc), hw]
        · rw [bestAccSpec, hb, max_eq_left hc]
    · by_cases hc : acc m < acc n
      · right
        refine ⟨n, Nat.lt_succ_self n, hpos.trans hc, ?_, ?_, ?_, ?_⟩
        · rw [bestWtsSpec, if_pos (by rw [hb]; exact hc)]
        · rw [bestAccSpec, hb, max_eq_right hc.le]
        · intro j hj
          rcases Nat.lt_succ_iff_lt_or_eq.1 hj with h | h
          · exact (hle j h).trans hc.le
          · exact h ▸ le_refl _
        · intro j hj
          exact (hle j hj).trans_lt hc
      · right
        push_neg at hc
        refine ⟨m, hm.trans (Nat.lt_succ_self n), hpos, ?_, ?_, fun j hj => ?_,
          hlt⟩
        · rw [bestWtsSpec, if_neg (by rw [hb]; exact not_lt.2 hc), hw]
        · rw [bestAccSpec, hb, max_eq_left hc]
        · rcases Nat.lt_succ_iff_lt_or_eq.1 hj with h | h
          · exact hle j h
          · exact h ▸ hc

/-- In a run that does not crash, `model_epoch_N.pth` is written during the
first `n` epochs exactly when `N` is a positive even number at most `n`. -/
lemma mem_epochFilesSpec (N n : ℕ) :
    N ∈ epochFilesSpec n ↔ N % 2 = 0 ∧ 0 < N ∧ N ≤ n := by
  induction n with
  | zero =>
    simp only [epochFilesSpec, List.not_mem_nil, false_iff]
    omega
  | succ n ih =>
    rw [epochFilesSpec, List.mem_append]
    by_cases hc : (n + 1) % 2 = 0
    · rw [if_pos hc]
      simp only [ih, List.mem_singleton]
      omega
    · rw [if_neg hc]
      simp only [ih, List.not_mem_nil, or_false]
      omega

/-! ## Lemmas about the event trace and the scheduler -/

lemma epochEvents_length (nT nV e : ℕ) :
    (epochEvents nT nV e).length = epochLen nT nV := by
  simp [epochEvents, epochLen]
  omega

lemma runTrace_length (nT nV E : ℕ) :
    (runTrace nT nV E).length = E * epochLen nT nV := by
  induction E with
  | zero => simp [runTrace]
  | succ E ih =>
    rw [runTrace, List.length_append, ih, epochEvents_length, Nat.succ_mul]

/-- Position `e * epochLen + k` of the run trace lies inside epoch `e`'s
event block, at offset `k`. -/
lemma runTrace_getElem (nT nV e k : ℕ) (hk : k < epochLen nT nV) :
    ∀ E, e < E →
      (runTrace nT nV E)[e * epochLen nT nV + k]? =
        (epochEvents nT nV e)[k]? := by
  intro E
  induction E with
  | zero => omega
  | succ E ih =>
    intro he
    rw [runTrace]
    rcases Nat.lt_or_ge e E with h | h
    · have hlt : e * epochLen nT nV + k < (runTrace nT nV E).length := by
        rw [runTrace_length]
        calc e * epochLen nT nV + k
            < e * epochLen nT nV + epochLen nT nV := Nat.add_lt_add_left hk _
          _ = (e + 1) * epochLen nT nV := (Nat.succ_mul e _).symm
          _ ≤ E * epochLen nT nV := Nat.mul_le_mul_right _ h
      rw [List.getElem?_append_left hlt, ih h]
    · have heE : e = E := by omega
      subst heE
      rw [List.getElem?_append_right
        (by rw [runTrace_length]; exact Nat.le_add_right _ _)]
      rw [runTrace_length, Nat.add_sub_cancel_left]

lemma epochEvents_getElem_train (nT nV e i : ℕ) (hi : i < nT) :
    (epochEvents nT nV e)[i]? = some (Ev.trainBatch e i) := by
  unfold epochEvents
  rw [List.getElem?_append_left (by simp; omega),
    List.getElem?_append_left (by simpa using hi)]
  simp [hi]

lemma epochEvents_getElem_sched (nT nV e : ℕ) :
    (epochEvents nT nV e)[nT]? = some (Ev.schedStep e) := by
  unfold epochEvents
  rw [List.getElem?_append_left (by simp)]
  rw [List.getElem?_append_right (by simp)]
  simp

lemma epochEvents_getElem_val (nT nV e j : ℕ) (hj : j < nV) :
    (epochEvents nT nV e)[nT + 1 + j]? = some (Ev.valBatch e j) := by
  unfold epochEvents
  rw [List.getElem?_append_right (by simp)]
  simp [Nat.add_sub_cancel_left, hj]

lemma countP_trainBatches (nT e : ℕ) :
    ((List.range nT).map (Ev.trainBatch e)).countP isSchedStep = 0 := by
  rw [List.countP_eq_zero]
  intro a ha
  rcases List.mem_map.1 ha with ⟨i, _, rfl⟩
  simp [isSchedStep]

lemma countP_epochEvents_sched (nT nV e : ℕ) :
    (epochEvents nT nV e).countP isSchedStep = 1 := by
  unfold epochEvents
  rw [List.countP_append, List.countP_append, countP_trainBatches]
  have hV : ((List.range nV).map (Ev.valBatch e)).countP isSchedStep = 0 := by
    rw [List.countP_eq_zero]
    intro a ha
    rcases List.mem_map.1 ha with ⟨j, _, rfl⟩
    simp [isSchedStep]
  rw [hV]
  simp [List.countP_cons, isSchedStep]

/-- Each complete epoch contributes exactly one `scheduler.step()` call. -/
lemma countP_runTrace_sched (nT nV E : ℕ) :
    (runTrace nT nV E).countP isSchedStep = E := by
  induction E with
  | zero => rfl
  | succ E ih =>
    rw [runTrace, List.countP_append, ih, countP_epochEvents_sched]

lemma runTrace_split (nT nV e : ℕ) :
    ∀ E, e ≤ E → ∃ rest, runTrace nT nV E = runTrace nT nV e ++ rest := by
  intro E
  induction E with
  | zero =>
    intro he
    have h0 : e = 0 := by omega
    subst h0
    exact ⟨[], rfl⟩
  | succ E ih =>
    intro he
    rcases eq_or_lt_of_le he with h | h
    · exact ⟨[], by rw [h, List.append_nil]⟩
    · rcases ih (by omega) with ⟨rest, hr⟩
      exact ⟨rest ++ epochEvents nT nV E,
        by rw [runTrace, hr, List.append_assoc]⟩

/-- Before and during epoch `e`'s training batches, exactly `e`
`scheduler.step()` calls have happened: the rate set after the `e`-th call
is the one in effect throughout epoch `e`'s training phase. -/
lemma countP_take_runTrace (nT nV E e : ℕ) (he : e < E) :
    ((runTrace nT nV E).take (e * epochLen nT nV + nT)).countP isSchedStep
      = e := by
  rcases runTrace_split nT nV (e + 1) E he with ⟨rest, hr⟩
  rw [hr, runTrace, List.append_assoc, List.take_append_eq_append_take]
  rw [List.take_of_length_le
    (by rw [runTrace_length]; exact Nat.le_add_right _ _)]
  rw [runTrace_length, Nat.add_sub_cancel_left]
  rw [show epochEvents nT nV e ++ rest =
      (List.range nT).map (Ev.trainBatch e) ++
        ([Ev.schedStep e] ++ (List.range nV).map (Ev.valBatch e) ++ rest)
    from by simp [epochEvents]]
  rw [List.take_append_eq_append_take,
    List.take_of_length_le (by simp)]
  rw [List.length_map, List.length_range, Nat.sub_self, List.take_zero,
    List.append_nil, List.countP_append, countP_runTrace_sched,
    countP_trainBatches]
  rfl

/-- Closed form for the scheduler state: after `n` steps, `last_epoch = n`
and the stored learning rate is `0.001 * 0.1 ^ (n / 7)`. -/
lemma schedIterate (n : ℕ) :
    schedStepLR^[n] schedInit =
      { step_size := 7, gamma := 0.1, last_epoch := n,
        lr := (0.001 : ℚ) * (0.1 : ℚ) ^ (n / 7) } := by
  induction n with
  | zero =>
    simp [schedInit, SchedState.mk.injEq]
  | succ n ih =>
    rw [Function.iterate_succ_apply', ih]
    unfold schedStepLR
    by_cases hc : (n + 1) % 7 = 0
    · have hd : (n + 1) / 7 = n / 7 + 1 := by omega
      simp only [SchedState.mk.injEq, hc, if_pos, hd, pow_succ]
      exact ⟨trivial, trivial, trivial, by ring⟩
    · have hd : (n + 1) / 7 = n / 7 := by omega
      rw [if_neg hc]
      simp [SchedState.mk.injEq, hd]

/-! ## Lemmas about per-batch metric accumulation -/

lemma batchCorrects_le (preds labels : List ℕ) :
    batchCorrects preds labels ≤ preds.length := by
  unfold batchCorrects
  calc (preds.zip labels).countP (fun pl => pl.1 == pl.2)
      ≤ (preds.zip labels).length := List.countP_le_length _
    _ ≤ preds.length := by rw [List.length_zip]; exact Nat.min_le_left _ _

lemma phaseRun_corrects_le {W I : Type} (forward : W → I → ℕ)
    (criterion : W → Batch I → ℚ) (optStep : W → Batch I → W)
    (phase : Phase) (bs : List (Batch I)) :
    ∀ s : PhaseState W,
      (phaseRun forward criterion optStep phase s bs).running_corrects ≤
        s.running_corrects + (bs.map fun b => b.inputs.length).sum := by
  induction bs with
  | nil => intro s; simp [phaseRun]
  | cons b bs ih =>
    intro s
    rw [phaseRun, List.foldl_cons]
    refine (ih _).trans ?_
    simp only [batchStep, List.map_cons, List.sum_cons]
    have hb := batchCorrects_le (b.inputs.map (forward s.weights)) b.labels
    rw [List.length_map] at hb
    omega

lemma phaseRun_loss_nonneg {W I : Type} (forward : W → I → ℕ)
    (criterion : W → Batch I → ℚ) (optStep : W → Batch I → W)
    (phase : Phase) (bs : List (Batch I)) :
    (∀ (w : W) (b : Batch I), b ∈ bs → 0 ≤ criterion w b) →
      ∀ s : PhaseState W, 0 ≤ s.running_loss →
        0 ≤ (phaseRun forward criterion optStep phase s bs).running_loss := by
  induction bs with
  | nil => intro _ s hs; simpa [phaseRun] using hs
  | cons b bs ih =>
    intro hloss s hs
    rw [phaseRun, List.foldl_cons]
    refine ih (fun w b' hb' => hloss w b' (List.mem_cons_of_mem b hb')) _ ?_
    simp only [batchStep]
    exact add_nonneg hs
      (mul_nonneg (hloss s.weights b (List.mem_cons_self b bs))
        (Nat.cast_nonneg _))

/-- `int(0.8 * N)` agrees with exact integer arithmetic `4 * N / 5`. -/
lemma train_size_eq (N : ℕ) : train_size N = 4 * N / 5 := by
  unfold train_size
  rw [show (0.8 : ℚ) * (N : ℚ) = ((4 * N : ℕ) : ℚ) / ((5 : ℕ) : ℚ) from by
    push_cast
    ring_nf]
  rw [Nat.floor_div_nat, Nat.floor_natCast]

/-! ## Claim theorems -/

/-- C1 (amended): the accuracies attached to successive `best_model.pth`
writes are monotonically non-decreasing over the run, and — for every epoch
whose validation phase actually executes — the best accuracy, the
best-weights snapshot and the `best_model.pth` file are updated exactly when
that epoch's validation accuracy is strictly positive and strictly exceeds
every previous epoch's validation accuracy.  (The original claim omits
"strictly positive", which epoch 0 falsifies when its accuracy is 0.) -/
theorem C1_best_checkpoint (W : Type) (w0 : W) (tw : ℕ → W) (acc : ℕ → ℚ)
    (E : ℕ) :
    ((loop w0 tw acc E).bestWrites).Sorted (· ≤ ·) ∧
      ∀ e, (loop w0 tw acc (e + 1)).crashed = false →
        ((loop w0 tw acc (e + 1)).bestWrites =
            (loop w0 tw acc e).bestWrites ++ [acc e] ↔
          0 < acc e ∧ ∀ j, j < e → acc j < acc e) := by
  constructor
  · by_cases h0 : 0 < acc 0
    · rw [loop_char w0 tw acc h0 E]
      exact (bestWritesSpec_sorted acc E).imp (fun h => le_of_lt h)
    · push_neg at h0
      rcases E with _ | _ | n
      · rw [loop_zero]
        simp [initState]
      · rw [loop_one_of_nonpos w0 tw acc h0]
        simp [initState]
      · rw [loop_crash_of_nonpos w0 tw acc h0 _ (by omega)]
        simp [initState]
  · intro e hnc
    by_cases h0 : 0 < acc 0
    · rw [loop_char w0 tw acc h0 (e + 1), loop_char w0 tw acc h0 e]
      show bestWritesSpec acc (e + 1) = bestWritesSpec acc e ++ [acc e] ↔ _
      rw [bestWritesSpec]
      by_cases hc : bestAccSpec acc e < acc e
      · rw [if_pos hc]
        exact ⟨fun _ => (bestAccSpec_lt_iff acc e (acc e)).1 hc, fun _ => rfl⟩
      · rw [if_neg hc, List.append_nil]
        constructor
        · intro h
          have hlen := congrArg List.length h
          simp at hlen
        · intro h
          exact absurd ((bestAccSpec_lt_iff acc e (acc e)).2 h) hc
    · push_neg at h0
      rcases Nat.eq_zero_or_pos e with he | he
      · subst he
        rw [loop_one_of_nonpos w0 tw acc h0, loop_zero]
        simp [initState, not_lt.2 h0]
      · exfalso
        rw [loop_crash_of_nonpos w0 tw acc h0 (e + 1) (by omega)] at hnc
        simp at hnc

/-- Witness for C1: in the run with accuracies 1, 2, 0, ... the best write
at epoch 1 happens, as epoch 1's accuracy 2 is positive and beats epoch 0's
accuracy 1. -/
theorem C1_best_checkpoint_witness :
    (loop 0 twW accW 2).bestWrites = (loop 0 twW accW 1).bestWrites ++ [accW 1] :=
  ((C1_best_checkpoint ℕ 0 twW accW 2).2 1 (by decide)).mpr
    ⟨by decide, by decide⟩

/-- Counterexample to C1 as stated: in a one-epoch run with validation
accuracy 0, epoch 0's accuracy vacuously "strictly exceeds every previous
epoch's validation accuracy", yet no best write occurs (`epoch_acc > 0.0`
fails), so the claimed "exactly when" is false. -/
theorem C1_counterexample :
    ¬ ((loop (W := ℕ) 0 twW accZ 1).bestWrites =
          (loop (W := ℕ) 0 twW accZ 0).bestWrites ++ [accZ 0] ↔
        ∀ j, j < 0 → accZ j < accZ 0) := by
  decide

/-- C2 (amended): provided the run completes all its epochs (no
`save_dir` abort) and at least one epoch's validation accuracy is strictly
positive, `train_model` returns the deep-copied snapshot taken at the first
epoch attaining the maximum validation accuracy — not necessarily the final
epoch's weights. -/
theorem C2_returns_best_snapshot (W : Type) (w0 : W) (tw : ℕ → W)
    (acc : ℕ → ℚ) (E : ℕ) (hnc : (loop w0 tw acc E).crashed = false)
    (hex : ∃ e, e < E ∧ 0 < acc e) :
    ∃ m, m < E ∧ (train_model w0 tw acc E).2 = some (tw m) ∧
      (∀ j, j < E → acc j ≤ acc m) ∧ ∀ j, j < m → acc j < acc m := by
  have h0 : 0 < acc 0 := by
    rcases hex with ⟨e, heE, hpos⟩
    rcases Nat.lt_or_ge E 2 with hE | hE
    · have he0 : e = 0 := by omega
      exact he0 ▸ hpos
    · by_contra hcon
      have hc := (loop_crashed_iff w0 tw acc E).2 ⟨hE, not_lt.1 hcon⟩
      rw [hnc] at hc
      simp at hc
  have hchar := loop_char w0 tw acc h0 E
  rcases bestWtsSpec_char w0 tw acc E with ⟨hall, _, _⟩ |
    ⟨m, hm, _, hw, _, hle, hlt⟩
  · rcases hex with ⟨e, heE, hpos⟩
    exact absurd hpos (not_lt.2 (hall e heE))
  · refine ⟨m, hm, ?_, hle, hlt⟩
    simp [train_model, hchar, hw]

/-- Witness for C2: accuracies 1, 2, 0 over three epochs; the returned
weights are epoch 1's snapshot `twW 1`. -/
theorem C2_returns_best_snapshot_witness :
    ∃ m, m < 3 ∧ (train_model 0 twW accW 3).2 = some (twW m) ∧
      (∀ j, j < 3 → accW j ≤ accW m) ∧ ∀ j, j < m → accW j < accW m :=
  C2_returns_best_snapshot ℕ 0 twW accW 3 (by decide) ⟨0, by decide, by decide⟩

/-- Counterexample to C2 as stated: in a one-epoch run whose validation
accuracy is 0, no epoch's snapshot is ever captured; the model is returned
with its initial weights 0, not with the snapshot `twC 0 = 1` of the
(unique, hence highest-accuracy) epoch 0. -/
theorem C2_counterexample :
    ¬ ∃ m, m < 1 ∧ (∀ j, j < 1 → accZ j ≤ accZ m) ∧
        (train_model (W := ℕ) 0 twC accZ 1).2 = some (twC m) := by
  decide

/-- C3: the claim is right about the intent, but the code has a bug.  In a
run whose first validation accuracy is positive (so `save_dir` gets
assigned in epoch 0), `model_epoch_N.pth` exists after `E` epochs exactly
when `N` is a positive multiple of 2 with `N ≤ E`.  But the even-epoch
write does NOT succeed "regardless of whether any validation improvement
has occurred": with no improvement before epoch 1's periodic save, the
unbound `save_dir` aborts the run and no epoch file is ever written, as the
four-epoch all-zero-accuracy run shows. -/
theorem C3_epoch_checkpoint_files :
    (∀ (W : Type) (w0 : W) (tw : ℕ → W) (acc : ℕ → ℚ) (E N : ℕ),
        0 < acc 0 →
        (N ∈ (loop w0 tw acc E).epochFiles ↔ N % 2 = 0 ∧ 0 < N ∧ N ≤ E)) ∧
      (loop (W := ℕ) 0 twC accZ 4).crashed = true ∧
      (loop (W := ℕ) 0 twC accZ 4).epochFiles = [] ∧
      (loop (W := ℕ) 0 twC accP 5).crashed = false ∧
      (loop (W := ℕ) 0 twC accP 5).epochFiles = [2, 4] := by
  refine ⟨?_, by decide, by decide, by decide, by decide⟩
  intro W w0 tw acc E N h0
  rw [loop_char w0 tw acc h0 E]
  exact mem_epochFilesSpec N E

/-- Witness for C3's conditional part: in a five-epoch run with positive
accuracy from epoch 0 on, `model_epoch_2.pth` is among the files written. -/
theorem C3_epoch_checkpoint_files_witness :
    2 ∈ (loop (W := ℕ) 0 twC accP 5).epochFiles ↔
      2 % 2 = 0 ∧ 0 < 2 ∧ 2 ≤ 5 :=
  C3_epoch_checkpoint_files.1 ℕ 0 twC accP 5 2 (by decide)

/-- C10 (amended): with `best_acc` initialised to 0.0 and the best snapshot
to the incoming weights, a run in which no epoch's validation accuracy
strictly exceeds 0.0 never writes `best_model.pth` and keeps the initial
weights as its best snapshot; with at most one epoch it returns the model
with its original weights restored, but with two or more epochs the
`save_dir` bug aborts the run at epoch 1's periodic save and nothing is
returned.  (The original claim asserts the original weights are always
returned.) -/
theorem C10_no_improvement_run (W : Type) (w0 : W) (tw : ℕ → W)
    (acc : ℕ → ℚ) (E : ℕ) (hz : ∀ e, e < E → acc e ≤ 0) :
    (loop w0 tw acc E).bestWrites = [] ∧
      (loop w0 tw acc E).best_wts = w0 ∧
      (E ≤ 1 → (train_model w0 tw acc E).2 = some w0) ∧
      (2 ≤ E → (train_model w0 tw acc E).2 = none) := by
  rcases Nat.lt_or_ge E 2 with hE | hE
  · interval_cases E
    · exact ⟨rfl, rfl, fun _ => rfl, fun h => absurd h (by omega)⟩
    · have h1 := loop_one_of_nonpos w0 tw acc (hz 0 (by omega))
      refine ⟨by rw [h1]; simp [initState], by rw [h1]; simp [initState],
        fun _ => ?_, fun h => absurd h (by omega)⟩
      simp [train_model, h1, initState]
  · have hcr := loop_crash_of_nonpos w0 tw acc (hz 0 (by omega)) E hE
    refine ⟨by rw [hcr]; simp [initState], by rw [hcr]; simp [initState],
      fun h => absurd hE (by omega), fun _ => ?_⟩
    simp [train_model, hcr, initState]

/-- Witness for C10: a single-epoch run with accuracy 0 writes no best file
and returns the original weights 0. -/
theorem C10_no_improvement_run_witness :
    (loop (W := ℕ) 0 twC accZ 1).bestWrites = [] ∧
      (loop (W := ℕ) 0 twC accZ 1).best_wts = 0 ∧
      (1 ≤ 1 → (train_model (W := ℕ) 0 twC accZ 1).2 = some 0) ∧
      (2 ≤ 1 → (train_model (W := ℕ) 0 twC accZ 1).2 = none) :=
  C10_no_improvement_run ℕ 0 twC accZ 1 (by decide)

/-- Counterexample to C10 as stated: the two-epoch all-zero-accuracy run
aborts at epoch 1's periodic save, so `train_model` returns nothing rather
than the model with its original weights 0 restored. -/
theorem C10_counterexample :
    (train_model (W := ℕ) 0 twC accZ 2).2 = none ∧
      (train_model (W := ℕ) 0 twC accZ 2).2 ≠ some 0 := by
  decide

/-- C4: during epoch `e`'s training phase exactly `e` `scheduler.step()`
calls have occurred, and the learning rate set by the `e`-th call of the
`StepLR(step_size=7, gamma=0.1)` schedule over an optimizer with `lr=0.001`
is `0.001 * 0.1 ^ (e / 7)` (exact rational arithmetic standing for the
script's floating point). -/
theorem C4_learning_rate (nT nV E e : ℕ) (he : e < E) :
    ((runTrace nT nV E).take (e * epochLen nT nV + nT)).countP isSchedStep
        = e ∧
      lrAfter e = (0.001 : ℚ) * (0.1 : ℚ) ^ (e / 7) := by
  refine ⟨countP_take_runTrace nT nV E e he, ?_⟩
  unfold lrAfter
  rw [schedIterate]

/-- Witness for C4: at epoch 8 of a ten-epoch run, 8 scheduler steps have
occurred and the learning rate is `0.001 * 0.1 ^ 1 = 0.0001`. -/
theorem C4_learning_rate_witness :
    ((runTrace 1 1 10).take (8 * epochLen 1 1 + 1)).countP isSchedStep = 8 ∧
      lrAfter 8 = (0.001 : ℚ) * (0.1 : ℚ) ^ (8 / 7) :=
  C4_learning_rate 1 1 10 8 (by decide)

/-- C5 (amended): within every epoch `e` the run trace first contains all of
epoch `e`'s training batches, then epoch `e`'s `scheduler.step()` call, then
all of epoch `e`'s validation batches, all before any event of epoch `e+1`.
(The original claim places the scheduler advance after the validation phase;
the source calls `scheduler.step()` inside the train iteration of the phase
loop, before the validation phase runs.) -/
theorem C5_phase_order (nT nV E e i j : ℕ) (he : e < E) (hi : i < nT)
    (hj : j < nV) :
    (runTrace nT nV E)[e * epochLen nT nV + i]? =
        some (Ev.trainBatch e i) ∧
      (runTrace nT nV E)[e * epochLen nT nV + nT]? =
        some (Ev.schedStep e) ∧
      (runTrace nT nV E)[e * epochLen nT nV + (nT + 1 + j)]? =
        some (Ev.valBatch e j) ∧
      e * epochLen nT nV + i < e * epochLen nT nV + nT ∧
      e * epochLen nT nV + nT < e * epochLen nT nV + (nT + 1 + j) ∧
      e * epochLen nT nV + (nT + 1 + j) < (e + 1) * epochLen nT nV ∧
      (runTrace nT nV E).length = E * epochLen nT nV := by
  refine ⟨?_, ?_, ?_, Nat.add_lt_add_left hi _,
    Nat.add_lt_add_left (by omega) _, ?_, runTrace_length nT nV E⟩
  · rw [runTrace_getElem nT nV e i (by unfold epochLen; omega) E he]
    exact epochEvents_getElem_train nT nV e i hi
  · rw [runTrace_getElem nT nV e nT (by unfold epochLen; omega) E he]
    exact epochEvents_getElem_sched nT nV e
  · rw [runTrace_getElem nT nV e (nT + 1 + j) (by unfold epochLen; omega) E he]
    exact epochEvents_getElem_val nT nV e j hj
  · rw [Nat.succ_mul]
    exact Nat.add_lt_add_left (by unfold epochLen; omega) _

/-- Witness for C5: epoch 1 of a two-epoch run with two training batches and
one validation batch. -/
theorem C5_phase_order_witness :
    (runTrace 2 1 2)[1 * epochLen 2 1 + 0]? = some (Ev.trainBatch 1 0) ∧
      (runTrace 2 1 2)[1 * epochLen 2 1 + 2]? = some (Ev.schedStep 1) ∧
      (runTrace 2 1 2)[1 * epochLen 2 1 + (2 + 1 + 0)]? =
        some (Ev.valBatch 1 0) ∧
      1 * epochLen 2 1 + 0 < 1 * epochLen 2 1 + 2 ∧
      1 * epochLen 2 1 + 2 < 1 * epochLen 2 1 + (2 + 1 + 0) ∧
      1 * epochLen 2 1 + (2 + 1 + 0) < (1 + 1) * epochLen 2 1 ∧
      (runTrace 2 1 2).length = 2 * epochLen 2 1 :=
  C5_phase_order 2 1 2 1 0 0 (by decide) (by decide) (by decide)

/-- Counterexample to C5 as stated: in a one-epoch run with one training and
one validation batch, the `scheduler.step()` call (index 1) precedes the
validation batch (index 2), so the trace differs from the spec-claimed order
train-batches, validation-batches, scheduler-advance. -/
theorem C5_counterexample :
    (runTrace 1 1 1)[1]? = some (Ev.schedStep 0) ∧
      (runTrace 1 1 1)[2]? = some (Ev.valBatch 0 0) ∧
      runTrace 1 1 1 ≠ runTraceClaimed 1 1 1 := by
  decide

/-- C6: `train_size = int(0.8 * N) = ⌊0.8 N⌋`, `val_size = N - train_size`,
and for any permutation of the `N` sample indices the two subsets produced
by `random_split` have those sizes, are disjoint, and together are a
permutation of all indices (each sample covered exactly once). -/
theorem C6_dataset_split (N : ℕ) (perm : List ℕ)
    (hperm : perm.Perm (List.range N)) :
    train_size N = 4 * N / 5 ∧
      train_size N + val_size N = N ∧
      (random_split perm (train_size N)).1.length = train_size N ∧
      (random_split perm (train_size N)).2.length = val_size N ∧
      (random_split perm (train_size N)).1.Disjoint
        (random_split perm (train_size N)).2 ∧
      ((random_split perm (train_size N)).1 ++
          (random_split perm (train_size N)).2).Perm (List.range N) := by
  have hlen : perm.length = N := by rw [hperm.length_eq, List.length_range]
  have hts : train_size N ≤ N := by
    rw [train_size_eq]
    calc 4 * N / 5 ≤ 5 * N / 5 := Nat.div_le_div_right (by omega)
      _ = N := Nat.mul_div_cancel_left N (by norm_num)
  have hnd : perm.Nodup := hperm.nodup_iff.2 (List.nodup_range N)
  refine ⟨train_size_eq N, ?_, ?_, ?_, ?_, ?_⟩
  · unfold val_size
    omega
  · simp [random_split, hlen, min_eq_left hts]
  · simp [random_split, hlen, val_size]
  · rw [← List.take_append_drop (train_size N) perm] at hnd
    exact (List.nodup_append.1 hnd).2.2
  · show (perm.take (train_size N) ++ perm.drop (train_size N)).Perm _
    rw [List.take_append_drop]
    exact hperm

/-- Witness for C6: ten samples, the concrete permutation `permW`:
train size 8, validation size 2, disjoint covering subsets. -/
theorem C6_dataset_split_witness :
    train_size 10 = 4 * 10 / 5 ∧
      train_size 10 + val_size 10 = 10 ∧
      (random_split permW (train_size 10)).1.length = train_size 10 ∧
      (random_split permW (train_size 10)).2.length = val_size 10 ∧
      (random_split permW (train_size 10)).1.Disjoint
        (random_split permW (train_size 10)).2 ∧
      ((random_split permW (train_size 10)).1 ++
          (random_split permW (train_size 10)).2).Perm (List.range 10) :=
  C6_dataset_split 10 permW (by decide)

/-- C7: with equal base seeds, two runs produce the same train/validation
split and every worker consumes the same augmentation stream; worker `wid`
is seeded `42 + wid` (base seed 42 plus worker index), so distinct workers
of one run always receive distinct seeds.  The library PRNGs are modelled as
deterministic functions of their seed. -/
theorem C7_seed_determinism (torchPerm : ℕ → ℕ → List ℕ)
    (npStream : ℕ → List ℚ) (seed1 seed2 N w1 w2 : ℕ) (hseed : seed1 = seed2)
    (hw : w1 ≠ w2) :
    splitOfSeed torchPerm seed1 N = splitOfSeed torchPerm seed2 N ∧
      workerAugStream npStream w1 = npStream (42 + w1) ∧
      worker_init_fn w1 ≠ worker_init_fn w2 := by
  subst hseed
  refine ⟨rfl, rfl, ?_⟩
  unfold worker_init_fn
  omega

/-- Witness for C7 at concrete PRNG models, seed 42, workers 0 and 3. -/
theorem C7_seed_determinism_witness :
    splitOfSeed (fun _ n => List.range n) 42 5 =
        splitOfSeed (fun _ n => List.range n) 42 5 ∧
      workerAugStream (fun s => [(s : ℚ)]) 0 =
        (fun s : ℕ => [(s : ℚ)]) (42 + 0) ∧
      worker_init_fn 0 ≠ worker_init_fn 3 :=
  C7_seed_determinism (fun _ n => List.range n) (fun s => [(s : ℚ)]) 42 42 5
    0 3 rfl (by decide)

/-- C8: whichever the phase, starting from zeroed accumulators, the reported
accuracy `running_corrects / size` lies in `[0, 1]` whenever the loader's
batches cover `size` samples in total, and the reported loss is non-negative
whenever the per-batch criterion values are (cross-entropy is). -/
theorem C8_metric_bounds (W I : Type) (forward : W → I → ℕ)
    (criterion : W → Batch I → ℚ) (optStep : W → Batch I → W) (phase : Phase)
    (w : W) (bs : List (Batch I)) (N : ℕ)
    (hloss : ∀ (v : W) (b : Batch I), b ∈ bs → 0 ≤ criterion v b)
    (hN : (bs.map fun b => b.inputs.length).sum = N) (hN0 : 0 < N) :
    0 ≤ (epochMetrics (phaseRun forward criterion optStep phase
          { weights := w, running_loss := 0, running_corrects := 0 } bs)
        N).2 ∧
      (epochMetrics (phaseRun forward criterion optStep phase
          { weights := w, running_loss := 0, running_corrects := 0 } bs)
        N).2 ≤ 1 ∧
      0 ≤ (epochMetrics (phaseRun forward criterion optStep phase
          { weights := w, running_loss := 0, running_corrects := 0 } bs)
        N).1 := by
  refine ⟨?_, ?_, ?_⟩
  · exact div_nonneg (Nat.cast_nonneg _) (Nat.cast_nonneg _)
  · show ((phaseRun forward criterion optStep phase _ bs).running_corrects
        : ℚ) / N ≤ 1
    rw [div_le_one (by exact_mod_cast hN0)]
    have h := phaseRun_corrects_le forward criterion optStep phase bs
      { weights := w, running_loss := 0, running_corrects := 0 }
    rw [hN] at h
    simp only [Nat.zero_add] at h
    exact_mod_cast h
  · exact div_nonneg
      (phaseRun_loss_nonneg forward criterion optStep phase bs hloss _ le_rfl)
      (Nat.cast_nonneg _)

/-- Witness for C8: a single two-sample batch with constant criterion 1. -/
theorem C8_metric_bounds_witness :
    0 ≤ (epochMetrics (phaseRun (fun w i => w + i) (fun _ _ => (1 : ℚ))
          (fun w _ => w + 1) Phase.train
          { weights := 0, running_loss := 0, running_corrects := 0 } bsW)
        2).2 ∧
      (epochMetrics (phaseRun (fun w i => w + i) (fun _ _ => (1 : ℚ))
          (fun w _ => w + 1) Phase.train
          { weights := 0, running_loss := 0, running_corrects := 0 } bsW)
        2).2 ≤ 1 ∧
      0 ≤ (epochMetrics (phaseRun (fun w i => w + i) (fun _ _ => (1 : ℚ))
          (fun w _ => w + 1) Phase.train
          { weights := 0, running_loss := 0, running_corrects := 0 } bsW)
        2).1 :=
  C8_metric_bounds ℕ ℕ (fun w i => w + i) (fun _ _ => (1 : ℚ))
    (fun w _ => w + 1) Phase.train 0 bsW 2 (fun _ _ _ => by norm_num)
    (by decide) (by decide)

/-- C9: a validation-phase pass over any list of batches performs no
optimizer update: the weights after the whole phase equal the weights
before it (the per-batch step only changes weights in the train phase). -/
theorem C9_val_phase_preserves_weights (W I : Type) (forward : W → I → ℕ)
    (criterion : W → Batch I → ℚ) (optStep : W → Batch I → W)
    (s : PhaseState W) (bs : List (Batch I)) :
    (phaseRun forward criterion optStep Phase.val s bs).weights =
      s.weights := by
  induction bs generalizing s with
  | nil => rfl
  | cons b bs ih => exact (ih _).trans rfl

end EX2
